import Mathlib

/-!
Verification of the rag-service core against its specification.

The definitions below are a shallow embedding of the TypeScript/JavaScript
sources:

* `src/services/code-retrieval.service.ts` — `CodeRetrievalService`
  (`storeExample`, `retrieveSimilarExamples`, `getStats`, `getErrorStats`)
  and `CodebaseIndexerService` (`indexFile`, `indexCodebase`,
  `searchSimilar`, `cosineSimilarity`);
* `src/services/embedding.service.js` — `EmbeddingService`
  (`retryWithBackoff`, `generateAPIEmbedding`, `cosineSimilarity`).

External effects (the embedding provider, the Qdrant vector index, the file
system, SQLite) are modelled as explicit environment records whose fields
record the outcome of each external call; JavaScript exceptions are modelled
with `Except`, and a `try`/`catch` that swallows an error becomes a total
function that returns the catch-branch value.  JavaScript numbers are
idealised as `ℚ` where only comparisons matter (similarity scores coming
back from Qdrant) and as `ℝ` where square roots are computed (cosine
similarity).
-/

namespace RagService

/-! ### Shared vector arithmetic

`cosineSimilarity` embeds the identical implementations in
`EmbeddingService.cosineSimilarity` (embedding.service.js, lines 310-323) and
`CodebaseIndexerService.cosineSimilarity` (code-retrieval.service.ts, lines
1030-1046): `dot / (sqrt(normA) * sqrt(normB))`.  The square-root function is
a parameter so that the definition stays executable over `ℚ` and can be
instantiated with `Real.sqrt` over `ℝ`.  The length guard of the source
(`throw` on mismatched lengths) is handled at each call site. -/

def dotProduct [LinearOrderedField α] (a b : List α) : α :=
  (List.zipWith (fun x y => x * y) a b).sum

def cosineSimilarity [LinearOrderedField α] (sqrt : α → α) (a b : List α) : α :=
  dotProduct a b / (sqrt (dotProduct a a) * sqrt (dotProduct b b))

/-! ### The example ledger (`CodeRetrievalService`)

One row of the SQLite `code_examples` table.  `success` is stored as an
`INTEGER` 0/1 in the schema; it is modelled as `Bool`. -/

structure LedgerRow where
  id : Nat
  task : String
  code : String
  language : String
  framework : Option String
  tool : String
  success : Bool
  embedding : List ℚ
  timestamp : Nat
  errorMessage : Option String
  errorType : Option String
deriving DecidableEq

/-- Result shape of `CodeRetrievalService.getStats`
(code-retrieval.service.ts, lines 337-353).  The SQL `GROUP BY` result sets
are modelled as total count functions (absent groups count 0). -/
structure Stats where
  total : Nat
  byTool : String → Nat
  byLanguage : String → Nat

/-- Model of `getStats`: `SELECT COUNT(*) ... WHERE success = 1`, and the two
`GROUP BY` queries, all restricted to `success = 1`. -/
def getStats (db : List LedgerRow) : Stats where
  total := (db.filter (fun r => r.success)).length
  byTool := fun t => (db.filter (fun r => r.success && r.tool == t)).length
  byLanguage := fun l => (db.filter (fun r => r.success && r.language == l)).length

/-- Result shape of `CodeRetrievalService.getErrorStats`
(code-retrieval.service.ts, lines 504-535). -/
structure ErrorStats where
  totalErrors : Nat
  byErrorType : String → Nat
  byLanguage : String → Nat

/-- Model of `getErrorStats`: the three count queries, all restricted to
`success = 0` (`byErrorType` additionally requires `error_type IS NOT NULL`).
The `recentErrors` preview list of the source is ordering-only presentation
and carries no counts; it is omitted here. -/
def getErrorStats (db : List LedgerRow) : ErrorStats where
  totalErrors := (db.filter (fun r => !r.success)).length
  byErrorType := fun t =>
    (db.filter (fun r => !r.success && r.errorType == some t)).length
  byLanguage := fun l =>
    (db.filter (fun r => !r.success && r.language == l)).length

theorem stats_ext (a b : Stats) (h1 : a.total = b.total)
    (h2 : ∀ t, a.byTool t = b.byTool t) (h3 : ∀ l, a.byLanguage l = b.byLanguage l) :
    a = b := by
  cases a; cases b
  simp only [Stats.mk.injEq]
  exact ⟨h1, funext h2, funext h3⟩

theorem errorStats_ext (a b : ErrorStats) (h1 : a.totalErrors = b.totalErrors)
    (h2 : ∀ t, a.byErrorType t = b.byErrorType t)
    (h3 : ∀ l, a.byLanguage l = b.byLanguage l) :
    a = b := by
  cases a; cases b
  simp only [ErrorStats.mk.injEq]
  exact ⟨h1, funext h2, funext h3⟩

theorem filter_length_split (db : List LedgerRow) :
    (db.filter (fun r => r.success)).length
      + (db.filter (fun r => !r.success)).length = db.length := by
  induction db with
  | nil => rfl
  | cons r rest ih =>
    cases hs : r.success <;> simp [List.filter_cons, hs, ← ih] <;> omega

/-- C10: `getStats` counts only `success = 1` rows; `getErrorStats` counts
only `success = 0` rows; together they partition the ledger.  Adding a failed
row leaves `getStats` entirely unchanged and increments `totalErrors`; adding
a successful row leaves `getErrorStats` entirely unchanged and increments
`total` (and the row's own tool/language groups). -/
theorem getStats_success_only (db : List LedgerRow) (r : LedgerRow) :
    (r.success = false →
        getStats (r :: db) = getStats db
        ∧ (getErrorStats (r :: db)).totalErrors = (getErrorStats db).totalErrors + 1)
    ∧ (r.success = true →
        getErrorStats (r :: db) = getErrorStats db
        ∧ (getStats (r :: db)).total = (getStats db).total + 1
        ∧ (getStats (r :: db)).byTool r.tool = (getStats db).byTool r.tool + 1
        ∧ (getStats (r :: db)).byLanguage r.language
            = (getStats db).byLanguage r.language + 1)
    ∧ ((getStats db).total + (getErrorStats db).totalErrors = db.length) := by
  refine ⟨fun hf => ?_, fun hs => ?_, filter_length_split db⟩
  · constructor
    · refine stats_ext _ _ ?_ (fun t => ?_) (fun l => ?_) <;>
        simp [getStats, List.filter_cons, hf]
    · simp [getErrorStats, List.filter_cons, hf]
  · constructor
    · refine errorStats_ext _ _ ?_ (fun t => ?_) (fun l => ?_) <;>
        simp [getErrorStats, List.filter_cons, hs]
    · refine ⟨?_, ?_, ?_⟩ <;> simp [getStats, List.filter_cons, hs]

/-- Witness for `getStats_success_only` at a one-row ledger and a failed row. -/
theorem getStats_success_only_witness :
    let okRow : LedgerRow :=
      { id := 1, task := "t", code := "c", language := "ts", framework := none,
        tool := "gen", success := true, embedding := [1], timestamp := 0,
        errorMessage := none, errorType := none }
    let badRow : LedgerRow :=
      { id := 2, task := "t2", code := "c2", language := "ts", framework := none,
        tool := "gen", success := false, embedding := [1], timestamp := 1,
        errorMessage := some "boom", errorType := some "runtime" }
    badRow.success = false ∧
      (getStats (badRow :: [okRow]) = getStats [okRow]
        ∧ (getErrorStats (badRow :: [okRow])).totalErrors
            = (getErrorStats [okRow]).totalErrors + 1) := by
  exact ⟨rfl, (getStats_success_only [_] _).1 rfl⟩

/-! ### `storeExample` (code-retrieval.service.ts, lines 147-218)

The call graph of one submission: `generateEmbedding` (may throw), the SQLite
`INSERT` (may throw; both propagate through the outer `catch` which re-throws),
then a best-effort `qdrantService.upsertPoint` wrapped in its own
`try`/`catch` that only logs a warning. -/

/-- Caller-supplied fields of one example submission (the
`Omit<CodeExample, 'id' | 'embedding' | 'timestamp'>` argument). -/
structure ExampleInput where
  task : String
  code : String
  language : String
  framework : Option String
  tool : String
  success : Bool
  errorMessage : Option String
  errorType : Option String
deriving DecidableEq

/-- The denormalised copy pushed to Qdrant (`CodePoint` built at lines
175-195), keyed by the relational row id. -/
structure QdrantPoint where
  id : Nat
  dense : List ℚ
  task : String
  code : String
  language : String
  framework : Option String
  tool : String
  success : Bool
deriving DecidableEq

/-- Combined persistent state: the SQLite `code_examples` table (with its
`AUTOINCREMENT` counter) and the Qdrant collection. -/
structure RagState where
  rows : List LedgerRow
  nextId : Nat
  qdrant : List QdrantPoint
deriving DecidableEq

/-- Outcomes of the external calls made by one `storeExample` invocation. -/
structure StoreEnv where
  embedResult : Except String (List ℚ)
  sqliteOk : Bool
  qdrantOk : Bool
  now : Nat

/-- The relational row written by `storeExample` (the `INSERT` at lines
152-171). -/
def mkLedgerRow (id : Nat) (ex : ExampleInput) (emb : List ℚ) (now : Nat) :
    LedgerRow where
  id := id
  task := ex.task
  code := ex.code
  language := ex.language
  framework := ex.framework
  tool := ex.tool
  success := ex.success
  embedding := emb
  timestamp := now
  errorMessage := ex.errorMessage
  errorType := ex.errorType

/-- The Qdrant point written by `storeExample` (lines 175-197). -/
def mkQdrantPoint (id : Nat) (ex : ExampleInput) (emb : List ℚ) : QdrantPoint where
  id := id
  dense := emb
  task := ex.task
  code := ex.code
  language := ex.language
  framework := ex.framework
  tool := ex.tool
  success := ex.success

/-- Model of `CodeRetrievalService.storeExample`: embed the task, insert the relational
row, then best-effort upsert to Qdrant.  An embedding or SQLite failure
propagates (`Except.error`); a Qdrant failure is swallowed by the inner
`catch` and the already-written relational state is kept. -/
def storeExample (env : StoreEnv) (st : RagState) (ex : ExampleInput) :
    Except String (Nat × RagState) :=
  match env.embedResult with
  | .error e => .error e
  | .ok emb =>
    if env.sqliteOk then
      let insertId := st.nextId
      let st1 : RagState :=
        { st with rows := st.rows ++ [mkLedgerRow insertId ex emb env.now],
                  nextId := insertId + 1 }
      if env.qdrantOk then
        .ok (insertId, { st1 with qdrant := st1.qdrant ++ [mkQdrantPoint insertId ex emb] })
      else
        .ok (insertId, st1)
    else
      .error "relational insert failed"

/-- C1: when the embedding call and the relational insert succeed but the
Qdrant upsert fails, `storeExample` still returns `ok` with the generated
relational id, the relational row stays in the ledger (no rollback), the
vector-store error is not propagated, and the Qdrant collection is left
unchanged. -/
theorem storeExample_qdrant_failure (env : StoreEnv) (st : RagState)
    (ex : ExampleInput) (emb : List ℚ)
    (hemb : env.embedResult = .ok emb) (hsql : env.sqliteOk = true)
    (hq : env.qdrantOk = false) :
    storeExample env st ex =
      .ok (st.nextId,
        { rows := st.rows ++ [mkLedgerRow st.nextId ex emb env.now],
          nextId := st.nextId + 1,
          qdrant := st.qdrant }) := by
  simp [storeExample, hemb, hsql, hq]

/-- Witness for `storeExample_qdrant_failure` on a concrete submission with
an unreachable vector store. -/
theorem storeExample_qdrant_failure_witness :
    let env : StoreEnv :=
      { embedResult := .ok [1, 2], sqliteOk := true, qdrantOk := false, now := 33 }
    let st : RagState := { rows := [], nextId := 7, qdrant := [] }
    let ex : ExampleInput :=
      { task := "reverse a string", code := "code", language := "ts",
        framework := none, tool := "gen", success := true,
        errorMessage := none, errorType := none }
    env.embedResult = .ok [1, 2] ∧ env.sqliteOk = true ∧ env.qdrantOk = false ∧
      storeExample env st ex =
        .ok (7, { rows := [mkLedgerRow 7 ex [1, 2] 33], nextId := 8, qdrant := [] }) := by
  refine ⟨rfl, rfl, rfl, ?_⟩
  exact storeExample_qdrant_failure _ _ _ _ rfl rfl rfl

/-! ### `retrieveSimilarExamples` (code-retrieval.service.ts, lines 223-297)

The Qdrant search is an external call; its outcome is an environment field.
Scores are rationals (JavaScript numbers used only in comparisons). -/

/-- One scored point as returned by `qdrantService.searchDense`. -/
structure ScoredPoint where
  id : Nat
  score : ℚ
  task : String
  code : String
  language : String
  framework : Option String
  tool : String
  success : Bool
  timestamp : Nat
deriving DecidableEq

/-- The conjunctive Qdrant filter built at lines 243-255: always
`success = true`, plus optional tool/language equality constraints. -/
structure QdrantFilter where
  success : Bool
  tool : Option String
  language : Option String
deriving DecidableEq

/-- Options of `retrieveSimilarExamples` after default resolution (the
source fills `topK`/`threshold` from `RAG_TOP_K` / `RAG_SIMILARITY_THRESHOLD`
when absent). -/
structure RetrievalOptions where
  tool : Option String
  language : Option String
  topK : Nat
  threshold : ℚ
deriving DecidableEq

/-- Environment of one retrieval: the embedding outcome and the Qdrant
`searchDense` call (a function of query vector, filter and `topK`), which can
itself fail. -/
structure RetrievalEnv where
  embedResult : Except String (List ℚ)
  searchFails : Bool
  search : List ℚ → QdrantFilter → Nat → List ScoredPoint

/-- Filter construction of lines 243-255. -/
def buildFilter (opts : RetrievalOptions) : QdrantFilter where
  success := true
  tool := opts.tool
  language := opts.language

/-- One entry of the returned ranked list (a `RetrievalResult`: the example
payload plus its similarity). -/
structure RetrievalResult where
  id : Nat
  task : String
  code : String
  language : String
  framework : Option String
  tool : String
  success : Bool
  timestamp : Nat
  similarity : ℚ
deriving DecidableEq

/-- Payload-to-result conversion of lines 267-281. -/
def toRetrievalResult (sp : ScoredPoint) : RetrievalResult where
  id := sp.id
  task := sp.task
  code := sp.code
  language := sp.language
  framework := sp.framework
  tool := sp.tool
  success := sp.success
  timestamp := sp.timestamp
  similarity := sp.score

/-- Model of `CodeRetrievalService.retrieveSimilarExamples`: embed the query, search
Qdrant with the built filter and `topK`, drop scores below `threshold`, map
to results.  The enclosing `try`/`catch` turns any failure (embedding error
or search error) into the empty list. -/
def retrieveSimilarExamples (env : RetrievalEnv) (opts : RetrievalOptions) :
    List RetrievalResult :=
  match env.embedResult with
  | .error _ => []
  | .ok q =>
    if env.searchFails then []
    else
      ((env.search q (buildFilter opts) opts.topK).filter
          (fun sp => opts.threshold ≤ sp.score)).map toRetrievalResult

/-- True exactly when an `Except` value carries an error. -/
def exceptFailed : Except ε α → Bool
  | .error _ => true
  | .ok _ => false

/-- C2: on any failure mode of the retrieval path — the embedding call throws
or the Qdrant search throws — `retrieveSimilarExamples` returns the empty
list; no error reaches the caller. -/
theorem retrieveSimilarExamples_degrades (env : RetrievalEnv)
    (opts : RetrievalOptions)
    (h : exceptFailed env.embedResult = true ∨ env.searchFails = true) :
    retrieveSimilarExamples env opts = [] := by
  rcases h with h | h
  · cases he : env.embedResult with
    | error e => simp [retrieveSimilarExamples, he]
    | ok q => rw [he] at h; simp [exceptFailed] at h
  · cases he : env.embedResult with
    | error e => simp [retrieveSimilarExamples, he]
    | ok q => simp [retrieveSimilarExamples, he, h]

/-- Witness for `retrieveSimilarExamples_degrades`: the Qdrant index is
unreachable but the embedding succeeded. -/
theorem retrieveSimilarExamples_degrades_witness :
    let env : RetrievalEnv :=
      { embedResult := .ok [1], searchFails := true, search := fun _ _ _ => [] }
    let opts : RetrievalOptions :=
      { tool := none, language := none, topK := 3, threshold := 6 / 10 }
    (exceptFailed env.embedResult = true ∨ env.searchFails = true) ∧
      retrieveSimilarExamples env opts = [] := by
  exact ⟨Or.inr rfl, retrieveSimilarExamples_degrades _ _ (Or.inr rfl)⟩

/-- C5: raising the threshold (all other options equal) can only shrink the
result list — every result at threshold `t2` also appears at threshold
`t1 < t2` — and every returned result scores at least the requested
threshold.  The threshold is applied client-side after the Qdrant search, so
both calls see the same ranked candidates. -/
theorem retrieveSimilarExamples_threshold_monotone (env : RetrievalEnv)
    (opts : RetrievalOptions) (t1 t2 : ℚ) (hlt : t1 < t2) :
    (∀ r, r ∈ retrieveSimilarExamples env { opts with threshold := t2 } →
        r ∈ retrieveSimilarExamples env { opts with threshold := t1 })
    ∧ (∀ t r, r ∈ retrieveSimilarExamples env { opts with threshold := t } →
        t ≤ r.similarity) := by
  constructor
  · intro r hr
    cases he : env.embedResult with
    | error e => simp [retrieveSimilarExamples, he] at hr
    | ok q =>
      by_cases hs : env.searchFails
      · simp [retrieveSimilarExamples, he, hs] at hr
      · simp only [retrieveSimilarExamples, he, hs, Bool.false_eq_true, if_false,
          List.mem_map, List.mem_filter, buildFilter] at hr ⊢
        obtain ⟨sp, ⟨hmem, hscore⟩, hmap⟩ := hr
        refine ⟨sp, ⟨hmem, ?_⟩, hmap⟩
        simp only [decide_eq_true_eq] at hscore ⊢
        exact le_trans (le_of_lt hlt) hscore
  · intro t r hr
    cases he : env.embedResult with
    | error e => simp [retrieveSimilarExamples, he] at hr
    | ok q =>
      by_cases hs : env.searchFails
      · simp [retrieveSimilarExamples, he, hs] at hr
      · simp only [retrieveSimilarExamples, he, hs, Bool.false_eq_true, if_false,
          List.mem_map, List.mem_filter, buildFilter] at hr
        obtain ⟨sp, ⟨_, hscore⟩, hmap⟩ := hr
        simp only [decide_eq_true_eq] at hscore
        subst hmap
        exact hscore

/-- Witness for `retrieveSimilarExamples_threshold_monotone`: a search
returning one point with score 0.9; the point survives the lower threshold. -/
theorem retrieveSimilarExamples_threshold_monotone_witness :
    let sp : ScoredPoint :=
      { id := 1, score := 9 / 10, task := "t", code := "c", language := "ts",
        framework := none, tool := "gen", success := true, timestamp := 0 }
    let env : RetrievalEnv :=
      { embedResult := .ok [1], searchFails := false, search := fun _ _ _ => [sp] }
    let opts : RetrievalOptions :=
      { tool := none, language := none, topK := 3, threshold := 6 / 10 }
    ((1 : ℚ) / 2 < 8 / 10) ∧
      toRetrievalResult sp
        ∈ retrieveSimilarExamples env { opts with threshold := (1 : ℚ) / 2 } := by
  refine ⟨by norm_num, ?_⟩
  refine (retrieveSimilarExamples_threshold_monotone _ _ ((1 : ℚ) / 2) (8 / 10)
    (by norm_num)).1 _ ?_
  simp only [retrieveSimilarExamples, List.filter, List.mem_map]
  norm_num

/-! ### The incremental indexer (`CodebaseIndexerService.indexFile`,
code-retrieval.service.ts, lines 753-840)

The chunk store is the SQLite `code_chunks` table, modelled as a list of
rows in insertion order.  The file system (`stat`, `readFile`), the chunker
and the per-chunk embedding calls are environment fields.  The whole body is
wrapped in a `try`/`catch` that only logs, and each chunk's embedding/insert
is additionally wrapped in its own `try`/`catch` that continues with the
next chunk.  The vector entry type is a parameter `α` (instantiated at `ℚ`
for executable witnesses and at `ℝ` for cosine search). -/

/-- One chunk returned by the external chunker
(`chunker.chunkCode(content, language)`). -/
structure Chunk where
  code : String
  startLine : Nat
  endLine : Nat
  chunkType : String
  name : Option String
  language : String
deriving DecidableEq

/-- One row of the `code_chunks` table. -/
structure ChunkRow (α : Type) where
  id : String
  filePath : String
  relativePath : String
  content : String
  startLine : Nat
  endLine : Nat
  chunkType : String
  chunkName : Option String
  language : String
  embedding : List α
  lastModified : Nat
deriving DecidableEq

/-- Environment of one `indexFile` call: the `shouldIndexFile` verdict, the
observed `stat` modification time, the relative path, the file content, the
`getLanguage` result, the chunker output, and the outcome of each per-chunk
embedding call. -/
structure IndexerEnv (α : Type) where
  shouldIndex : Bool
  mtime : Nat
  relativePath : String
  content : String
  language : String
  chunks : List Chunk
  embedChunk : Chunk → Except String (List α)

/-- The chunk primary key built at line 806:
`relativePath:startLine-endLine:chunkType`. -/
def chunkId (relativePath : String) (c : Chunk) : String :=
  relativePath ++ ":" ++ toString c.startLine ++ "-" ++ toString c.endLine
    ++ ":" ++ c.chunkType

/-- The embedding returned for a chunk, defaulting to `[]` when the call
failed (only used under a success hypothesis). -/
def embedVal (env : IndexerEnv α) (c : Chunk) : List α :=
  match env.embedChunk c with
  | .ok e => e
  | .error _ => []

/-- The row inserted for one chunk (lines 809-821). -/
def mkChunkRow (env : IndexerEnv α) (filePath : String) (c : Chunk)
    (emb : List α) : ChunkRow α where
  id := chunkId env.relativePath c
  filePath := filePath
  relativePath := env.relativePath
  content := c.code
  startLine := c.startLine
  endLine := c.endLine
  chunkType := c.chunkType
  chunkName := c.name
  language := c.language
  embedding := emb
  lastModified := env.mtime

/-- One iteration of the per-chunk loop (lines 800-833): call
`generateEmbedding` (counted), and on success run the `INSERT`, which throws
on a duplicate primary key; both failure kinds are caught and the loop
continues.  The accumulator is the table so far and the number of embedding
calls made. -/
def insertChunkStep [DecidableEq α] (env : IndexerEnv α) (filePath : String)
    (acc : List (ChunkRow α) × Nat) (c : Chunk) : List (ChunkRow α) × Nat :=
  match env.embedChunk c with
  | .error _ => (acc.1, acc.2 + 1)
  | .ok emb =>
    if acc.1.any (fun row => row.id == chunkId env.relativePath c) then
      (acc.1, acc.2 + 1)
    else
      (acc.1 ++ [mkChunkRow env filePath c emb], acc.2 + 1)

/-- The reindex path of `indexFile` (lines 776-835): the unknown-language
skip, the `DELETE` of all rows of the file, then the chunk loop. -/
def indexFileReindex [DecidableEq α] (env : IndexerEnv α) (st : List (ChunkRow α))
    (filePath : String) : List (ChunkRow α) × Nat :=
  if env.language == "unknown" then (st, 0)
  else
    env.chunks.foldl (insertChunkStep env filePath)
      (st.filter (fun row => !(row.filePath == filePath)), 0)

/-- Model of `CodebaseIndexerService.indexFile`.  Returns the new chunk table and the
number of embedding calls performed.  Order of the source: the
`shouldIndexFile` guard, the unchanged-`mtime` skip (`SELECT last_modified
... LIMIT 1` and `existing.last_modified >= lastModified`), then the reindex
path. -/
def indexFile [DecidableEq α] (env : IndexerEnv α) (st : List (ChunkRow α))
    (filePath : String) : List (ChunkRow α) × Nat :=
  if env.shouldIndex then
    let existing := (st.filter (fun row => row.filePath == filePath)).head?
    match existing with
    | some row =>
      if env.mtime ≤ row.lastModified then (st, 0)
      else indexFileReindex env st filePath
    | none => indexFileReindex env st filePath
  else (st, 0)

/-- C3: if the file has stored chunks and none of them is older than the
observed modification time, `indexFile` is a no-op: the chunk table is
returned unchanged and zero embedding calls are made. -/
theorem indexFile_idempotent_skip [DecidableEq α] (env : IndexerEnv α)
    (st : List (ChunkRow α)) (filePath : String)
    (hex : st.filter (fun row => row.filePath == filePath) ≠ [])
    (hall : ∀ row ∈ st, row.filePath = filePath → env.mtime ≤ row.lastModified) :
    indexFile env st filePath = (st, 0) := by
  unfold indexFile
  by_cases hs : env.shouldIndex
  · simp only [hs, if_true]
    cases hh : (st.filter (fun row => row.filePath == filePath)).head? with
    | none => exact absurd (List.head?_eq_none_iff.mp hh) hex
    | some row =>
      have hmem : row ∈ st.filter (fun r => r.filePath == filePath) :=
        List.mem_of_mem_head? hh
      rw [List.mem_filter] at hmem
      have hle : env.mtime ≤ row.lastModified :=
        hall row hmem.1 (by simpa using hmem.2)
      simp [hle]
  · simp [hs]

/-- Witness for `indexFile_idempotent_skip`: a one-row store whose stored
timestamp equals the observed mtime. -/
theorem indexFile_idempotent_skip_witness :
    let env : IndexerEnv ℚ :=
      { shouldIndex := true, mtime := 100, relativePath := "a.ts",
        content := "x", language := "typescript",
        chunks := [{ code := "x", startLine := 1, endLine := 2,
                     chunkType := "function", name := none,
                     language := "typescript" }],
        embedChunk := fun _ => .ok [1] }
    let row : ChunkRow ℚ :=
      { id := "a.ts:1-2:function", filePath := "/p/a.ts", relativePath := "a.ts",
        content := "x", startLine := 1, endLine := 2, chunkType := "function",
        chunkName := none, language := "typescript", embedding := [1],
        lastModified := 100 }
    ([row].filter (fun r => r.filePath == "/p/a.ts") ≠ []) ∧
      (∀ r ∈ [row], r.filePath = "/p/a.ts" → env.mtime ≤ r.lastModified) ∧
      indexFile env [row] "/p/a.ts" = ([row], 0) := by
  refine ⟨by decide, by decide, ?_⟩
  exact indexFile_idempotent_skip _ _ _ (by decide) (by decide)

theorem insertLoop_spec [DecidableEq α] (env : IndexerEnv α) (filePath : String)
    (chunks : List Chunk) (B : List (ChunkRow α)) (n : Nat)
    (hemb : ∀ c ∈ chunks, exceptFailed (env.embedChunk c) = false)
    (hdist : (chunks.map (chunkId env.relativePath)).Nodup)
    (hfresh : ∀ c ∈ chunks, ∀ row ∈ B, row.id ≠ chunkId env.relativePath c) :
    chunks.foldl (insertChunkStep env filePath) (B, n)
      = (B ++ chunks.map (fun c => mkChunkRow env filePath c (embedVal env c)),
         n + chunks.length) := by
  induction chunks generalizing B n with
  | nil => simp
  | cons c rest ih =>
    rw [List.map_cons, List.nodup_cons] at hdist
    obtain ⟨e, he⟩ : ∃ e, env.embedChunk c = .ok e := by
      have := hemb c (by simp)
      cases h : env.embedChunk c with
      | error msg => rw [h] at this; simp [exceptFailed] at this
      | ok e => exact ⟨e, rfl⟩
    have hany : B.any (fun row => row.id == chunkId env.relativePath c) = false := by
      rw [List.any_eq_false]
      intro row hrow
      simpa using hfresh c (by simp) row hrow
    have hstep : insertChunkStep env filePath (B, n) c
        = (B ++ [mkChunkRow env filePath c e], n + 1) := by
      simp [insertChunkStep, he, hany]
    have hval : embedVal env c = e := by simp [embedVal, he]
    rw [List.foldl_cons, hstep,
      ih (B ++ [mkChunkRow env filePath c e]) (n + 1)
        (fun c' hc' => hemb c' (by simp [hc']))
        hdist.2
        ?_]
    · simp [hval, List.append_assoc]
      omega
    · intro c' hc' row hrow
      rcases List.mem_append.mp hrow with hB | hsingle
      · exact hfresh c' (by simp [hc']) row hB
      · have hid : row.id = chunkId env.relativePath c := by
          rcases List.mem_singleton.mp hsingle with rfl
          rfl
        rw [hid]
        intro hEq
        exact hdist.1 (hEq ▸ List.mem_map_of_mem (chunkId env.relativePath) hc')

theorem indexFile_reindex_eq [DecidableEq α] (env : IndexerEnv α)
    (st : List (ChunkRow α)) (filePath : String)
    (hshould : env.shouldIndex = true)
    (hlang : ¬env.language = "unknown")
    (hmod : ∀ row ∈ st, row.filePath = filePath → row.lastModified < env.mtime) :
    indexFile env st filePath
      = env.chunks.foldl (insertChunkStep env filePath)
          (st.filter (fun row => !(row.filePath == filePath)), 0) := by
  unfold indexFile
  simp only [hshould, if_true]
  have hre : indexFileReindex env st filePath
      = env.chunks.foldl (insertChunkStep env filePath)
          (st.filter (fun row => !(row.filePath == filePath)), 0) := by
    unfold indexFileReindex
    simp [hlang]
  cases hh : (st.filter (fun row => row.filePath == filePath)).head? with
  | none => simpa using hre
  | some row =>
    have hmem : row ∈ st.filter (fun r => r.filePath == filePath) :=
      List.mem_of_mem_head? hh
    rw [List.mem_filter] at hmem
    have hlt : row.lastModified < env.mtime :=
      hmod row hmem.1 (by simpa using hmem.2)
    have : ¬env.mtime ≤ row.lastModified := by omega
    simpa [this] using hre

theorem insertLoop_provenance [DecidableEq α] (env : IndexerEnv α)
    (filePath : String) (chunks : List Chunk) (B : List (ChunkRow α)) (n : Nat) :
    ∃ new : List (ChunkRow α),
      chunks.foldl (insertChunkStep env filePath) (B, n)
          = (B ++ new, n + chunks.length)
        ∧ ∀ row ∈ new, ∃ c ∈ chunks,
            row = mkChunkRow env filePath c (embedVal env c) := by
  induction chunks generalizing B n with
  | nil => exact ⟨[], by simp, by simp⟩
  | cons c rest ih =>
    have harith : n + (c :: rest).length = (n + 1) + rest.length := by
      simp [List.length_cons]; omega
    rw [List.foldl_cons, harith]
    cases he : env.embedChunk c with
    | error msg =>
      have hstep : insertChunkStep env filePath (B, n) c = (B, n + 1) := by
        simp [insertChunkStep, he]
      obtain ⟨new, heq, hprov⟩ := ih B (n + 1)
      refine ⟨new, by rw [hstep, heq], fun row hrow => ?_⟩
      obtain ⟨c', hc', hrow'⟩ := hprov row hrow
      exact ⟨c', List.mem_cons_of_mem c hc', hrow'⟩
    | ok e =>
      by_cases hconf : B.any (fun row => row.id == chunkId env.relativePath c)
      · have hstep : insertChunkStep env filePath (B, n) c = (B, n + 1) := by
          simp [insertChunkStep, he, hconf]
        obtain ⟨new, heq, hprov⟩ := ih B (n + 1)
        refine ⟨new, by rw [hstep, heq], fun row hrow => ?_⟩
        obtain ⟨c', hc', hrow'⟩ := hprov row hrow
        exact ⟨c', List.mem_cons_of_mem c hc', hrow'⟩
      · have hstep : insertChunkStep env filePath (B, n) c
            = (B ++ [mkChunkRow env filePath c e], n + 1) := by
          simp [insertChunkStep, he, hconf]
        obtain ⟨new, heq, hprov⟩ := ih (B ++ [mkChunkRow env filePath c e]) (n + 1)
        have hval : embedVal env c = e := by simp [embedVal, he]
        refine ⟨mkChunkRow env filePath c e :: new, ?_, fun row hrow => ?_⟩
        · rw [hstep, heq, List.append_assoc, List.singleton_append]
        · rcases List.mem_cons.mp hrow with rfl | hrow'
          · exact ⟨c, List.mem_cons_self c rest, by rw [hval]⟩
          · obtain ⟨c', hc', hrow''⟩ := hprov row hrow'
            exact ⟨c', List.mem_cons_of_mem c hc', hrow''⟩

/-- Concrete input refuting C4 as stated: a modified file whose chunker
returns two chunks, the second of which fails to embed. -/
def c4Env : IndexerEnv ℚ where
  shouldIndex := true
  mtime := 200
  relativePath := "a.ts"
  content := "new content"
  language := "typescript"
  chunks :=
    [{ code := "f", startLine := 1, endLine := 2, chunkType := "function",
       name := some "f", language := "typescript" },
     { code := "g", startLine := 3, endLine := 4, chunkType := "function",
       name := some "g", language := "typescript" }]
  embedChunk := fun c => if c.startLine == 1 then .ok [1] else .error "embedding failed"

/-- The prior chunk store for the concrete input: one stale chunk of the
same file. -/
def c4Store : List (ChunkRow ℚ) :=
  [{ id := "a.ts:1-9:full_file", filePath := "/p/a.ts", relativePath := "a.ts",
     content := "old content", startLine := 1, endLine := 9,
     chunkType := "full_file", chunkName := none, language := "typescript",
     embedding := [2], lastModified := 100 }]

/-- Second refuting input: the chunker returns two chunks occupying the same
line range with the same type, so both get the primary key
`a.ts:1-2:function`; every embedding succeeds. -/
def c4EnvDup : IndexerEnv ℚ where
  shouldIndex := true
  mtime := 200
  relativePath := "a.ts"
  content := "new content"
  language := "typescript"
  chunks :=
    [{ code := "f", startLine := 1, endLine := 2, chunkType := "function",
       name := some "f", language := "typescript" },
     { code := "g", startLine := 1, endLine := 2, chunkType := "function",
       name := some "g", language := "typescript" }]
  embedChunk := fun _ => .ok [1]

/-- Third refuting input: one chunk, every embedding succeeds. -/
def c4EnvColl : IndexerEnv ℚ where
  shouldIndex := true
  mtime := 200
  relativePath := "a.ts"
  content := "new content"
  language := "typescript"
  chunks :=
    [{ code := "f", startLine := 1, endLine := 2, chunkType := "function",
       name := some "f", language := "typescript" }]
  embedChunk := fun _ => .ok [1]

/-- Prior store for the third refuting input: a stale chunk of the modified
file plus a surviving row of another file that already carries the id the
new chunk will be given. -/
def c4StoreColl : List (ChunkRow ℚ) :=
  [{ id := "a.ts:0-9:full_file", filePath := "/p/a.ts", relativePath := "a.ts",
     content := "old content", startLine := 0, endLine := 9,
     chunkType := "full_file", chunkName := none, language := "typescript",
     embedding := [2], lastModified := 100 },
   { id := "a.ts:1-2:function", filePath := "/q/b.ts", relativePath := "a.ts",
     content := "other", startLine := 1, endLine := 2,
     chunkType := "function", chunkName := some "f", language := "typescript",
     embedding := [3], lastModified := 100 }]

/-- C4 counterexample: three modified-file runs on which the chunk store
after `indexFile` is not "exactly the chunks the chunker returned".
Run 1 (`c4Env`): the second chunk's embedding call fails, and the per-chunk
`catch` at lines 829-832 skips its insert.  Run 2 (`c4EnvDup`): all
embeddings succeed but the two chunks share one primary key, so the second
`INSERT` throws and is skipped by the same `catch`.  Run 3 (`c4EnvColl`,
`c4StoreColl`): all embeddings succeed but a surviving row of another file
already carries the new chunk's primary key, so its `INSERT` throws and the
file ends up with no rows at all.  Each run forces one proviso of the
amended claim. -/
theorem indexFile_not_exact_replace :
    (((indexFile c4Env c4Store "/p/a.ts").1.filter
        (fun r => r.filePath == "/p/a.ts")).length ≠ c4Env.chunks.length)
    ∧ (((indexFile c4EnvDup c4Store "/p/a.ts").1.filter
        (fun r => r.filePath == "/p/a.ts")).length ≠ c4EnvDup.chunks.length)
    ∧ (((indexFile c4EnvColl c4StoreColl "/p/a.ts").1.filter
        (fun r => r.filePath == "/p/a.ts")).length ≠ c4EnvColl.chunks.length) := by
  refine ⟨by decide, by decide, by decide⟩

/-- C4 amended: after `indexFile` on a modified file F, unconditionally —
for every outcome of the per-chunk embedding calls — every other file's rows
are untouched, no prior chunk of F remains, every row for F comes from the
chunker's output for the new content, and one embedding call is made per
returned chunk; moreover the rows for F are exactly the chunker's chunks (in
order) provided every chunk embedding call succeeds, the chunker assigns
pairwise-distinct chunk ids, and no surviving row of another file already
carries one of the new chunk ids — the three provisos forced by the three
runs of the counterexample. -/
theorem indexFile_atomic_replace [DecidableEq α] (env : IndexerEnv α)
    (st : List (ChunkRow α)) (filePath : String)
    (hshould : env.shouldIndex = true)
    (hlang : ¬env.language = "unknown")
    (hmod : ∀ row ∈ st, row.filePath = filePath → row.lastModified < env.mtime) :
    ((indexFile env st filePath).1.filter (fun r => !(r.filePath == filePath))
        = st.filter (fun r => !(r.filePath == filePath)))
    ∧ (∀ row ∈ st, row.filePath = filePath → row ∉ (indexFile env st filePath).1)
    ∧ (∀ row ∈ (indexFile env st filePath).1, row.filePath = filePath →
        ∃ c ∈ env.chunks, row = mkChunkRow env filePath c (embedVal env c))
    ∧ ((indexFile env st filePath).2 = env.chunks.length)
    ∧ ((∀ c ∈ env.chunks, exceptFailed (env.embedChunk c) = false) →
        (env.chunks.map (chunkId env.relativePath)).Nodup →
        (∀ c ∈ env.chunks, ∀ row ∈ st, ¬row.filePath = filePath →
            row.id ≠ chunkId env.relativePath c) →
        (indexFile env st filePath).1.filter (fun r => r.filePath == filePath)
          = env.chunks.map (fun c => mkChunkRow env filePath c (embedVal env c))) := by
  have hq := indexFile_reindex_eq env st filePath hshould hlang hmod
  obtain ⟨new, heq, hprov⟩ := insertLoop_provenance env filePath env.chunks
    (st.filter (fun row => !(row.filePath == filePath))) 0
  have hres : indexFile env st filePath
      = (st.filter (fun row => !(row.filePath == filePath)) ++ new,
         env.chunks.length) := by
    rw [hq, heq]
    simp
  refine ⟨?_, ?_, ?_, ?_, ?_⟩
  · rw [hres]
    simp only [List.filter_append]
    have h1 : (st.filter (fun row => !(row.filePath == filePath))).filter
        (fun r => !(r.filePath == filePath))
        = st.filter (fun row => !(row.filePath == filePath)) := by
      rw [List.filter_eq_self]
      intro row hrow
      exact (List.mem_filter.mp hrow).2
    have h2 : new.filter (fun r => !(r.filePath == filePath)) = [] := by
      rw [List.filter_eq_nil_iff]
      intro row hrow
      obtain ⟨c, _, rfl⟩ := hprov row hrow
      simp [mkChunkRow]
    rw [h1, h2, List.append_nil]
  · intro row hrowst hfp hmem
    rw [hres] at hmem
    rcases List.mem_append.mp hmem with hB | hnew
    · have := (List.mem_filter.mp hB).2
      simp [hfp] at this
    · obtain ⟨c, _, hroweq⟩ := hprov row hnew
      have hlt := hmod row hrowst hfp
      rw [hroweq] at hlt
      simp [mkChunkRow] at hlt
  · intro row hmem hfp
    rw [hres] at hmem
    rcases List.mem_append.mp hmem with hB | hnew
    · have := (List.mem_filter.mp hB).2
      simp [hfp] at this
    · exact hprov row hnew
  · rw [hres]
  · intro hemb hdist hfresh
    have hfold := insertLoop_spec env filePath env.chunks
        (st.filter (fun row => !(row.filePath == filePath))) 0 hemb hdist ?_
    · rw [hq]
      simp only [hfold]
      rw [List.filter_append]
      have h1 : (st.filter (fun row => !(row.filePath == filePath))).filter
          (fun r => r.filePath == filePath) = [] := by
        rw [List.filter_eq_nil_iff]
        intro row hrow
        rw [List.mem_filter] at hrow
        simp only [Bool.not_eq_eq_eq_not, Bool.not_true, beq_eq_false_iff_ne,
          ne_eq] at hrow
        simp [hrow.2]
      have h2 : (env.chunks.map
            (fun c => mkChunkRow env filePath c (embedVal env c))).filter
          (fun r => r.filePath == filePath)
          = env.chunks.map (fun c => mkChunkRow env filePath c (embedVal env c)) := by
        rw [List.filter_eq_self]
        intro row hrow
        rw [List.mem_map] at hrow
        obtain ⟨c, _, rfl⟩ := hrow
        simp [mkChunkRow]
      rw [h1, h2, List.nil_append]
    · intro c hc row hrow
      rw [List.mem_filter] at hrow
      refine hfresh c hc row hrow.1 ?_
      have := hrow.2
      simp only [Bool.not_eq_eq_eq_not, Bool.not_true, beq_eq_false_iff_ne,
        ne_eq] at this
      exact this

/-- Witness for `indexFile_atomic_replace`: the first counterexample input
with the second chunk's embedding repaired; the unconditional deletion
clause and the fully-provisioned exactness clause are both instantiated. -/
theorem indexFile_atomic_replace_witness :
    let env : IndexerEnv ℚ := { c4Env with embedChunk := fun _ => .ok [1] }
    (env.shouldIndex = true)
    ∧ (∀ row ∈ c4Store, row.filePath = "/p/a.ts" →
        row ∉ (indexFile env c4Store "/p/a.ts").1)
    ∧ ((indexFile env c4Store "/p/a.ts").1.filter
          (fun r => r.filePath == "/p/a.ts")
        = env.chunks.map (fun c => mkChunkRow env "/p/a.ts" c (embedVal env c))) := by
  intro env
  have h := indexFile_atomic_replace env c4Store "/p/a.ts" rfl (by decide) (by decide)
  exact ⟨rfl, h.2.1, h.2.2.2.2 (by decide) (by decide) (by decide)⟩

/-! ### `EmbeddingService` retry logic (embedding.service.js)

`retryWithBackoff` (lines 56-80) retries an attempt when the caught error's
message contains one of the substrings `"fetch failed"`, `"ECONNREFUSED"`,
`"429"` or `"5"`, halving the remaining budget and doubling the delay.
`generateAPIEmbedding` (lines 192-265) wraps each attempt: a non-ok HTTP
response throws `"Embedding API error: <status> - <body>"`, and the attempt's
own `catch` rewrites connection-refused errors and errors whose message
contains `"401"` or `"429"` into fixed descriptive messages before they reach
`retryWithBackoff`.  Each attempt's outcome is supplied by an oracle indexed
by attempt number. -/

/-- Substring occurrence test (JavaScript `String.prototype.includes`). -/
def containsSub (s pat : String) : Bool :=
  (List.range (s.length + 1)).any
    (fun i => ((s.toList.drop i).take pat.length) == pat.toList)

/-- The retryability test of `retryWithBackoff` (lines 65-68). -/
def isRetryable (msg : String) : Bool :=
  containsSub msg "fetch failed" || containsSub msg "ECONNREFUSED"
    || containsSub msg "429" || containsSub msg "5"

/-- Outcome of one `fetch` attempt inside `generateAPIEmbedding`. -/
inductive AttemptOutcome where
  /-- The response was ok and carried this embedding. -/
  | success (v : List ℚ)
  /-- The response was not ok: HTTP status and error body text. -/
  | httpError (status : Nat) (body : String)
  /-- The fetch rejected with error code `ConnectionRefused`/`ECONNREFUSED`. -/
  | connectionRefused
  /-- The fetch rejected with an arbitrary message and no special code. -/
  | otherError (message : String)
deriving DecidableEq

/-- One attempt of `generateAPIEmbedding` (the async closure at lines
197-264), including the error-message rewriting of its `catch` block: the
code branch for `ConnectionRefused`, then the `401` and `429` message
checks, else rethrow. -/
def apiAttempt (baseURL : String) (o : AttemptOutcome) : Except String (List ℚ) :=
  match o with
  | .success v => .ok v
  | .httpError status body =>
    let msg := "Embedding API error: " ++ toString status ++ " - " ++ body
    if containsSub msg "401" then
      .error "Invalid OpenRouter API key. Please check your OPENROUTER_API_KEY configuration."
    else if containsSub msg "429" then
      .error "OpenRouter API rate limit exceeded. Please try again later."
    else .error msg
  | .connectionRefused =>
    .error ("Cannot connect to OpenRouter API at " ++ baseURL
      ++ "/embeddings. Please check your network connection and API configuration.")
  | .otherError m =>
    if containsSub m "401" then
      .error "Invalid OpenRouter API key. Please check your OPENROUTER_API_KEY configuration."
    else if containsSub m "429" then
      .error "OpenRouter API rate limit exceeded. Please try again later."
    else .error m

/-- Model of `EmbeddingService.retryWithBackoff` (lines 56-80), specialised to the
attempt closure of `generateAPIEmbedding`.  `outcomes i` is the result of the
`i`-th attempt; the returned list records the backoff delay slept before each
retry (so its length is the number of retries performed). -/
def retryWithBackoff (outcomes : Nat → AttemptOutcome) (baseURL : String) :
    Nat → Nat → Nat → Except String (List ℚ) × List Nat
  | i, retries, delay =>
    match apiAttempt baseURL (outcomes i) with
    | .ok v => (.ok v, [])
    | .error msg =>
      match retries with
      | 0 => (.error msg, [])
      | rleft + 1 =>
        if isRetryable msg then
          let r := retryWithBackoff outcomes baseURL (i + 1) rleft (delay * 2)
          (r.1, delay :: r.2)
        else (.error msg, [])

/-- Model of `EmbeddingService.generateAPIEmbedding`: run the attempt under
`retryWithBackoff` with the configured retry budget and the initial 1000 ms
delay. -/
def generateAPIEmbedding (outcomes : Nat → AttemptOutcome) (baseURL : String)
    (maxRetries : Nat) : Except String (List ℚ) × List Nat :=
  retryWithBackoff outcomes baseURL 0 maxRetries 1000

set_option maxRecDepth 40000 in
/-- C7, evaluated at the failing inputs (default base URL, retry budget 3).
HTTP 429 and connection-refused — both named retryable by the spec and by
`retryWithBackoff`'s own marker list — fail immediately with zero retries,
because `generateAPIEmbedding`'s catch block rewrites them into messages
containing none of the markers `"fetch failed"`, `"ECONNREFUSED"`, `"429"`,
`"5"`.  HTTP 5xx is retried three times with doubling delays and the error
then propagates, and HTTP 401 fails immediately, as claimed. -/
theorem generateAPIEmbedding_429_not_retried :
    (generateAPIEmbedding (fun _ => .httpError 429 "Rate limit exceeded")
        "https://openrouter.ai/api/v1" 3
      = (.error "OpenRouter API rate limit exceeded. Please try again later.", []))
    ∧ (generateAPIEmbedding (fun _ => .connectionRefused)
        "https://openrouter.ai/api/v1" 3
      = (.error "Cannot connect to OpenRouter API at https://openrouter.ai/api/v1/embeddings. Please check your network connection and API configuration.", []))
    ∧ (generateAPIEmbedding (fun _ => .httpError 500 "Internal Server Error")
        "https://openrouter.ai/api/v1" 3
      = (.error "Embedding API error: 500 - Internal Server Error",
         [1000, 2000, 4000]))
    ∧ (generateAPIEmbedding (fun _ => .httpError 401 "Unauthorized")
        "https://openrouter.ai/api/v1" 3
      = (.error "Invalid OpenRouter API key. Please check your OPENROUTER_API_KEY configuration.", [])) := by
  refine ⟨?_, ?_, ?_, ?_⟩ <;> rfl

/-! ### `indexCodebase` re-entrancy (code-retrieval.service.ts, lines 845-921)

`indexCodebase` synchronously checks `this.isIndexing` and, when set, returns
`this.getStats()` without doing any indexing work; otherwise it sets the flag
(still synchronously, with no `await` between check and set), performs the
file enumeration/chunking/embedding work across many suspension points, and
clears the flag in `finally`.  This is modelled as a small-step interleaving
of two overlapping calls: each step is one synchronous segment between
suspension points.  `work1`/`work2` count the indexing work units performed
by each call; `stats` is the observable `getStats` value. -/

/-- Phase of one `indexCodebase` call. -/
inductive Phase where
  /-- Not yet entered the guard. -/
  | idle
  /-- Holding the flag with `k` work steps remaining. -/
  | working (k : Nat)
  /-- Returned early through the `isIndexing` guard, with the stats value it
  returned. -/
  | doneSkipped (ret : Nat)
  /-- Completed a full pass. -/
  | doneWorked
deriving DecidableEq

/-- Returns `true` exactly on `Phase.working`. -/
def Phase.isWorking : Phase → Bool
  | .working _ => true
  | _ => false

/-- Interleaving state of two concurrent `indexCodebase` calls. -/
structure CState where
  p1 : Phase
  p2 : Phase
  isIndexing : Bool
  stats : Nat
  work1 : Nat
  work2 : Nat
deriving DecidableEq

/-- One synchronous segment of either call.  `enter` is the guard check
falling through and setting the flag (no suspension point in between);
`skip` is the guard check returning the current stats; `work` is one unit of
indexing work; `finish` is the stats update plus the `finally` clearing the
flag. -/
inductive Step : CState → CState → Prop where
  | enter1 (s : CState) (n : Nat) (h : s.p1 = .idle) (hf : s.isIndexing = false) :
      Step s { s with p1 := .working n, isIndexing := true }
  | skip1 (s : CState) (h : s.p1 = .idle) (hf : s.isIndexing = true) :
      Step s { s with p1 := .doneSkipped s.stats }
  | work1 (s : CState) (k : Nat) (h : s.p1 = .working (k + 1)) :
      Step s { s with p1 := .working k, work1 := s.work1 + 1 }
  | finish1 (s : CState) (newStats : Nat) (h : s.p1 = .working 0) :
      Step s { s with p1 := .doneWorked, isIndexing := false, stats := newStats }
  | enter2 (s : CState) (n : Nat) (h : s.p2 = .idle) (hf : s.isIndexing = false) :
      Step s { s with p2 := .working n, isIndexing := true }
  | skip2 (s : CState) (h : s.p2 = .idle) (hf : s.isIndexing = true) :
      Step s { s with p2 := .doneSkipped s.stats }
  | work2 (s : CState) (k : Nat) (h : s.p2 = .working (k + 1)) :
      Step s { s with p2 := .working k, work2 := s.work2 + 1 }
  | finish2 (s : CState) (newStats : Nat) (h : s.p2 = .working 0) :
      Step s { s with p2 := .doneWorked, isIndexing := false, stats := newStats }

/-- Initial states: neither call entered yet, the flag clear, no work done. -/
def CInit (s : CState) : Prop :=
  s.p1 = .idle ∧ s.p2 = .idle ∧ s.isIndexing = false ∧ s.work1 = 0 ∧ s.work2 = 0

/-- States reachable from some initial state. -/
def CReachable (s : CState) : Prop :=
  ∃ s₀, CInit s₀ ∧ Relation.ReflTransGen Step s₀ s

/-- The inductive invariant: at most one call is in its working region, the
flag is set whenever one is, and a call that has not worked (idle or
skipped) has performed zero work units. -/
def CInv (s : CState) : Prop :=
  (s.p1.isWorking = false ∨ s.p2.isWorking = false)
  ∧ (s.isIndexing = false → s.p1.isWorking = false ∧ s.p2.isWorking = false)
  ∧ (s.p1 = .idle → s.work1 = 0) ∧ (∀ r, s.p1 = .doneSkipped r → s.work1 = 0)
  ∧ (s.p2 = .idle → s.work2 = 0) ∧ (∀ r, s.p2 = .doneSkipped r → s.work2 = 0)

theorem cinv_init (s : CState) (h : CInit s) : CInv s := by
  obtain ⟨h1, h2, h3, h4, h5⟩ := h
  refine ⟨Or.inl ?_, fun _ => ⟨?_, ?_⟩, fun _ => h4, fun r hr => h4, fun _ => h5,
    fun r hr => h5⟩ <;> simp [h1, h2, Phase.isWorking]

theorem cinv_step (s s' : CState) (hinv : CInv s) (hstep : Step s s') : CInv s' := by
  obtain ⟨i1, i2, i3, i4, i5, i6⟩ := hinv
  cases hstep with
  | enter1 n h hf =>
    have h2 := (i2 hf).2
    refine ⟨Or.inr h2, by simp, by simp, by simp, fun hp => i5 hp, fun r hp => i6 r hp⟩
  | skip1 h hf =>
    refine ⟨?_, fun hflag => ⟨by simp [Phase.isWorking], (i2 hflag).2⟩,
      by simp, fun r _ => i3 h, fun hp => i5 hp, fun r hp => i6 r hp⟩
    exact Or.inl (by simp [Phase.isWorking])
  | work1 k h =>
    refine ⟨?_, ?_, by simp, by simp, fun hp => i5 hp, fun r hp => i6 r hp⟩
    · rcases i1 with h1 | h2
      · rw [h] at h1; simp [Phase.isWorking] at h1
      · exact Or.inr h2
    · intro hflag
      have hw := (i2 hflag).1
      rw [h] at hw; simp [Phase.isWorking] at hw
  | finish1 newStats h =>
    refine ⟨Or.inl (by simp [Phase.isWorking]),
      fun _ => ⟨by simp [Phase.isWorking], ?_⟩,
      by simp, by simp, fun hp => i5 hp, fun r hp => i6 r hp⟩
    rcases i1 with h1 | h2
    · rw [h] at h1; simp [Phase.isWorking] at h1
    · exact h2
  | enter2 n h hf =>
    have h1 := (i2 hf).1
    refine ⟨Or.inl h1, by simp, fun hp => i3 hp, fun r hp => i4 r hp, by simp, by simp⟩
  | skip2 h hf =>
    refine ⟨?_, fun hflag => ⟨(i2 hflag).1, by simp [Phase.isWorking]⟩,
      fun hp => i3 hp, fun r hp => i4 r hp, by simp, fun r _ => i5 h⟩
    exact Or.inr (by simp [Phase.isWorking])
  | work2 k h =>
    refine ⟨?_, ?_, fun hp => i3 hp, fun r hp => i4 r hp, by simp, by simp⟩
    · rcases i1 with h1 | h2
      · exact Or.inl h1
      · rw [h] at h2; simp [Phase.isWorking] at h2
    · intro hflag
      have hw := (i2 hflag).2
      rw [h] at hw; simp [Phase.isWorking] at hw
  | finish2 newStats h =>
    refine ⟨Or.inr (by simp [Phase.isWorking]),
      fun _ => ⟨?_, by simp [Phase.isWorking]⟩,
      fun hp => i3 hp, fun r hp => i4 r hp, by simp, by simp⟩
    rcases i1 with h1 | h2
    · exact h1
    · rw [h] at h2; simp [Phase.isWorking] at h2

theorem cinv_reachable (s : CState) (h : CReachable s) : CInv s := by
  obtain ⟨s₀, hinit, hsteps⟩ := h
  induction hsteps with
  | refl => exact cinv_init s₀ hinit
  | tail hpre hstep ih => exact cinv_step _ _ ih hstep

/-- C8: in every reachable interleaving of two `indexCodebase` calls, the two
calls are never simultaneously in their working region; a call that returned
through the `isIndexing` guard performed zero units of indexing work; and
whenever a call passes the guard while the flag is set, the only transition
available to it returns the current stats immediately, changing nothing
else. -/
theorem indexCodebase_no_concurrent_pass (s : CState) (h : CReachable s) :
    (¬(s.p1.isWorking = true ∧ s.p2.isWorking = true))
    ∧ (∀ r, s.p1 = .doneSkipped r → s.work1 = 0)
    ∧ (∀ r, s.p2 = .doneSkipped r → s.work2 = 0)
    ∧ (∀ s', Step s s' → s.p1 = .idle → s.isIndexing = true → s'.p1 ≠ .idle →
        s' = { s with p1 := .doneSkipped s.stats })
    ∧ (∀ s', Step s s' → s.p2 = .idle → s.isIndexing = true → s'.p2 ≠ .idle →
        s' = { s with p2 := .doneSkipped s.stats }) := by
  obtain ⟨i1, i2, i3, i4, i5, i6⟩ := cinv_reachable s h
  refine ⟨?_, i4, i6, ?_, ?_⟩
  · rintro ⟨h1, h2⟩
    rcases i1 with hc | hc <;> simp_all
  · intro s' hstep hidle hflag hmoved
    cases hstep with
    | enter1 n h hf => rw [hflag] at hf; cases hf
    | skip1 h hf => rfl
    | work1 k h => rw [hidle] at h; cases h
    | finish1 newStats h => rw [hidle] at h; cases h
    | enter2 n h hf => rw [hflag] at hf; cases hf
    | skip2 h hf => exact absurd hidle hmoved
    | work2 k h => exact absurd hidle hmoved
    | finish2 newStats h => exact absurd hidle hmoved
  · intro s' hstep hidle hflag hmoved
    cases hstep with
    | enter1 n h hf => rw [hflag] at hf; cases hf
    | skip1 h hf => exact absurd hidle hmoved
    | work1 k h => exact absurd hidle hmoved
    | finish1 newStats h => exact absurd hidle hmoved
    | enter2 n h hf => rw [hflag] at hf; cases hf
    | skip2 h hf => rfl
    | work2 k h => rw [hidle] at h; cases h
    | finish2 newStats h => rw [hidle] at h; cases h

/-- Witness for `indexCodebase_no_concurrent_pass`: a state reached from an
initial state by the first call entering its working region. -/
theorem indexCodebase_no_concurrent_pass_witness :
    let s0 : CState :=
      { p1 := .idle, p2 := .idle, isIndexing := false, stats := 7,
        work1 := 0, work2 := 0 }
    let s1 : CState :=
      { p1 := .working 2, p2 := .idle, isIndexing := true, stats := 7,
        work1 := 0, work2 := 0 }
    CReachable s1 ∧
      ¬(s1.p1.isWorking = true ∧ s1.p2.isWorking = true) := by
  intro s0 s1
  have hreach : CReachable s1 := by
    refine ⟨s0, ⟨rfl, rfl, rfl, rfl, rfl⟩, ?_⟩
    exact Relation.ReflTransGen.single (Step.enter1 s0 2 rfl rfl)
  exact ⟨hreach, (indexCodebase_no_concurrent_pass s1 hreach).1⟩

/-! ### Cosine similarity bounds (C9)

The two identical `cosineSimilarity` implementations are analysed over `ℝ`
with the real square root. -/

theorem dotProduct_eq_sum (a b : List ℝ) (h : a.length = b.length) :
    dotProduct a b = ∑ i ∈ Finset.range a.length, a.getD i 0 * b.getD i 0 := by
  induction a generalizing b with
  | nil => simp [dotProduct]
  | cons x a' ih =>
    cases b with
    | nil => simp at h
    | cons y b' =>
      simp only [List.length_cons, Nat.add_right_cancel_iff] at h
      simp only [dotProduct, List.zipWith_cons_cons, List.sum_cons, List.length_cons]
      rw [Finset.sum_range_succ']
      simp only [List.getD_cons_succ, List.getD_cons_zero]
      rw [← dotProduct, ih b' h]
      ring

theorem dotProduct_self_pos (a : List ℝ) (ha : ∃ x ∈ a, x ≠ 0) :
    0 < dotProduct a a := by
  obtain ⟨x, hx, hx0⟩ := ha
  obtain ⟨i, hi, hget⟩ := List.mem_iff_getElem.mp hx
  rw [dotProduct_eq_sum a a rfl]
  refine Finset.sum_pos' (fun j _ => mul_self_nonneg _) ⟨i, Finset.mem_range.mpr hi, ?_⟩
  rw [List.getD_eq_getElem a 0 hi, hget]
  exact mul_self_pos.mpr hx0

theorem dotProduct_sq_le (a b : List ℝ) (h : a.length = b.length) :
    dotProduct a b ^ 2 ≤ dotProduct a a * dotProduct b b := by
  rw [dotProduct_eq_sum a b h, dotProduct_eq_sum a a rfl, dotProduct_eq_sum b b rfl, ← h]
  have := Finset.sum_mul_sq_le_sq_mul_sq (Finset.range a.length)
    (fun i => a.getD i 0) (fun i => b.getD i 0)
  simpa [pow_two] using this

set_option maxHeartbeats 800000 in
/-- C9: for equal-length vectors, each containing a nonzero entry, the
computed cosine similarity lies in `[-1, 1]`; comparing such a vector with
itself gives exactly 1. -/
theorem cosineSimilarity_bounds (a b : List ℝ) (hlen : a.length = b.length)
    (ha : ∃ x ∈ a, x ≠ 0) (hb : ∃ x ∈ b, x ≠ 0) :
    (-1 ≤ cosineSimilarity Real.sqrt a b ∧ cosineSimilarity Real.sqrt a b ≤ 1)
    ∧ cosineSimilarity Real.sqrt a a = 1 := by
  have hpa : 0 < dotProduct a a := dotProduct_self_pos a ha
  have hpb : 0 < dotProduct b b := dotProduct_self_pos b hb
  have hda : (0 : ℝ) < Real.sqrt (dotProduct a a) := Real.sqrt_pos.mpr hpa
  have hdb : (0 : ℝ) < Real.sqrt (dotProduct b b) := Real.sqrt_pos.mpr hpb
  have hdenom : (0 : ℝ) < Real.sqrt (dotProduct a a) * Real.sqrt (dotProduct b b) :=
    mul_pos hda hdb
  have habs : |dotProduct a b|
      ≤ Real.sqrt (dotProduct a a) * Real.sqrt (dotProduct b b) := by
    rw [← Real.sqrt_sq_eq_abs, ← Real.sqrt_mul hpa.le]
    exact Real.sqrt_le_sqrt (dotProduct_sq_le a b hlen)
  refine ⟨⟨?_, ?_⟩, ?_⟩
  · rw [cosineSimilarity, le_div_iff hdenom]
    have hlow := (abs_le.mp habs).1
    linarith
  · rw [cosineSimilarity, div_le_one hdenom]
    exact (abs_le.mp habs).2
  · rw [cosineSimilarity, Real.mul_self_sqrt hpa.le]
    exact div_self (ne_of_gt hpa)

/-- Witness for `cosineSimilarity_bounds` at the concrete orthonormal pair
`[1, 0]`, `[0, 1]`. -/
theorem cosineSimilarity_bounds_witness :
    ([(1 : ℝ), 0].length = [(0 : ℝ), 1].length) ∧
      ((-1 ≤ cosineSimilarity Real.sqrt [(1 : ℝ), 0] [(0 : ℝ), 1]
          ∧ cosineSimilarity Real.sqrt [(1 : ℝ), 0] [(0 : ℝ), 1] ≤ 1)
        ∧ cosineSimilarity Real.sqrt [(1 : ℝ), 0] [(1 : ℝ), 0] = 1) := by
  refine ⟨rfl, ?_⟩
  exact cosineSimilarity_bounds [(1 : ℝ), 0] [(0 : ℝ), 1] rfl
    ⟨1, by simp, one_ne_zero⟩ ⟨1, by simp, one_ne_zero⟩

/-! ### `CodebaseIndexerService.searchSimilar`
(code-retrieval.service.ts, lines 946-1025)

Embeds the query, optionally restricts to one language (`WHERE language = ?`),
computes cosine similarity against every candidate row, filters by threshold,
sorts descending and truncates to `topK`.  The JavaScript option defaults use
`||`, so an explicit 0 also selects the default (`topK = 5`,
`threshold = 0.7`).  A mismatched embedding length makes `cosineSimilarity`
throw, which the enclosing `catch` turns into `[]`. -/

/-- Environment of one `searchSimilar` call: the outcome of embedding the
query text. -/
structure QueryEnv (α : Type) where
  embedResult : Except String (List α)

/-- Options of `searchSimilar` before default resolution. -/
structure SearchOptions (α : Type) where
  topK : Option Nat
  threshold : Option α
  language : Option String

/-- Default resolution `options?.topK || 5`. -/
def resolveTopK (opts : SearchOptions α) : Nat :=
  match opts.topK with
  | none => 5
  | some k => if k = 0 then 5 else k

/-- Default resolution `options?.threshold || 0.7`. -/
def resolveThreshold [LinearOrderedField α] (opts : SearchOptions α) : α :=
  match opts.threshold with
  | none => 7 / 10
  | some t => if t = 0 then 7 / 10 else t

/-- One entry of `searchSimilar`'s result list. -/
structure ChunkSearchResult (α : Type) where
  filePath : String
  relativePath : String
  content : String
  startLine : Nat
  endLine : Nat
  similarity : α
  language : String
  chunkType : String
  chunkName : Option String

/-- Row-to-result conversion (lines 998-1013). -/
def toSearchResult (row : ChunkRow α) (sim : α) : ChunkSearchResult α where
  filePath := row.filePath
  relativePath := row.relativePath
  content := row.content
  startLine := row.startLine
  endLine := row.endLine
  similarity := sim
  language := row.language
  chunkType := row.chunkType
  chunkName := row.chunkName

/-- The descending comparator of `.sort((a, b) => b.similarity - a.similarity)`. -/
def simDesc [LinearOrderedField α] (x y : ChunkSearchResult α) : Prop :=
  y.similarity ≤ x.similarity

instance [LinearOrderedField α] : DecidableRel (simDesc (α := α)) :=
  fun x y => inferInstanceAs (Decidable (y.similarity ≤ x.similarity))

instance [LinearOrderedField α] : IsTotal (ChunkSearchResult α) simDesc :=
  ⟨fun a b => le_total b.similarity a.similarity⟩

instance [LinearOrderedField α] : IsTrans (ChunkSearchResult α) simDesc :=
  ⟨fun _ _ _ h1 h2 => le_trans h2 h1⟩

/-- Model of `CodebaseIndexerService.searchSimilar`: embed, select candidates
(optionally by language), score by cosine similarity, filter by threshold,
sort descending, truncate to `topK`; any thrown error (embedding failure, or
a length mismatch inside `cosineSimilarity`) yields `[]`. -/
def searchSimilar [LinearOrderedField α] (sqrt : α → α)
    (env : QueryEnv α) (st : List (ChunkRow α)) (opts : SearchOptions α) :
    List (ChunkSearchResult α) :=
  let topK := resolveTopK opts
  let threshold := resolveThreshold opts
  match env.embedResult with
  | .error _ => []
  | .ok q =>
    let candidates : List (ChunkRow α) :=
      match opts.language with
      | some lang => st.filter (fun row => row.language == lang)
      | none => st
    if candidates.all (fun row => row.embedding.length == q.length) then
      let results : List (ChunkSearchResult α) := candidates.map
        (fun row => toSearchResult row (cosineSimilarity sqrt q row.embedding))
      ((results.filter (fun r => threshold ≤ r.similarity)).insertionSort simDesc).take
        topK
    else []

/-- C6: every `searchSimilar` result list is sorted by descending similarity,
has at most the resolved `topK` entries, and each entry scores at least the
resolved threshold and is the cosine similarity (against the successfully
embedded query) of a stored chunk row that matches the requested language
when one was given. -/
theorem searchSimilar_spec (env : QueryEnv ℝ) (st : List (ChunkRow ℝ))
    (opts : SearchOptions ℝ) :
    List.Sorted simDesc (searchSimilar Real.sqrt env st opts)
    ∧ (searchSimilar Real.sqrt env st opts).length ≤ resolveTopK opts
    ∧ ∀ r ∈ searchSimilar Real.sqrt env st opts,
        resolveThreshold opts ≤ r.similarity
        ∧ ∃ q row, env.embedResult = .ok q ∧ row ∈ st
            ∧ (∀ lang, opts.language = some lang → row.language = lang)
            ∧ r = toSearchResult row (cosineSimilarity Real.sqrt q row.embedding) := by
  cases he : env.embedResult with
  | error e =>
    simp [searchSimilar, he]
  | ok q =>
    set candidates :=
      (match opts.language with
      | some lang => st.filter (fun row : ChunkRow ℝ => row.language == lang)
      | none => st) with hcand
    by_cases hall : candidates.all (fun row => row.embedding.length == q.length)
    · have hexpand : searchSimilar Real.sqrt env st opts
          = (((candidates.map
              (fun row => toSearchResult row (cosineSimilarity Real.sqrt q row.embedding))).filter
                (fun r : ChunkSearchResult ℝ =>
                  resolveThreshold opts ≤ r.similarity)).insertionSort simDesc).take
              (resolveTopK opts) := by
        rw [searchSimilar, he]
        simp only [← hcand, hall, if_true]
      refine ⟨?_, ?_, ?_⟩
      · rw [hexpand]
        exact List.Pairwise.sublist (List.take_sublist _ _)
          (List.sorted_insertionSort simDesc _)
      · rw [hexpand, List.length_take]
        exact min_le_left _ _
      · intro r hr
        rw [hexpand] at hr
        have hr1 := List.take_subset _ _ hr
        rw [(List.perm_insertionSort simDesc _).mem_iff, List.mem_filter] at hr1
        obtain ⟨hmem, hthr⟩ := hr1
        rw [List.mem_map] at hmem
        obtain ⟨row, hrow, rfl⟩ := hmem
        refine ⟨by simpa using hthr, q, row, rfl, ?_, ?_, rfl⟩
        · rw [hcand] at hrow
          cases hl : opts.language with
          | none => rw [hl] at hrow; exact hrow
          | some lang =>
            rw [hl] at hrow
            exact (List.mem_filter.mp hrow).1
        · intro lang hl
          rw [hcand, hl] at hrow
          have := (List.mem_filter.mp hrow).2
          simpa using this
    · have : searchSimilar Real.sqrt env st opts = [] := by
        rw [searchSimilar, he]
        simp only [← hcand]
        simp [hall]
      simp [this]

end RagService
